import Mathlib

/-!
Verification of the asset-store adapter of `claimspace-img-uploader`.

The adapter (GitHub-backed image upload service) is shallowly embedded below:
JS strings are lists of characters, the remote content API is an explicit
environment supplying one response per network call, and each operation
returns its result together with the trace of network calls it issued.
-/

set_option maxRecDepth 4096

namespace ImgUploader

/-- Strings are modelled as lists of characters. -/
abbrev Str := List Char

/-- Character list of a Lean string literal. -/
def litStr (s : String) : Str := s.data

/-- `SUPPORTED_IMAGE_EXTENSIONS` from the upload service. -/
def SUPPORTED_IMAGE_EXTENSIONS : List Str :=
  [litStr ".jpg", litStr ".jpeg", litStr ".png", litStr ".gif", litStr ".webp",
   litStr ".svg", litStr ".bmp", litStr ".ico", litStr ".tiff", litStr ".tif"]

/-- `IGNORED_FILES` from the upload service. -/
def IGNORED_FILES : List Str :=
  [litStr ".gitkeep", litStr ".gitignore", litStr "README.md", litStr ".DS_Store",
   litStr "Thumbs.db"]

/-- ASCII lowercasing of one character, modelling `String.prototype.toLowerCase`
on the ASCII range (all characters the adapter's constants use are ASCII). -/
def charToLower (c : Char) : Char :=
  if 65 ≤ c.toNat ∧ c.toNat ≤ 90 then Char.ofNat (c.toNat + 32) else c

/-- `filename.toLowerCase()`. -/
def strToLower (s : Str) : Str := s.map charToLower

/-- `isImageFile` (part_000 lines 20-23): lowercase the name, then test whether
some supported extension is a suffix. -/
def isImageFile (filename : Str) : Bool :=
  SUPPORTED_IMAGE_EXTENSIONS.any (fun extension => extension.isSuffixOf (strToLower filename))

/-- `shouldIgnoreFile` (part_000 lines 25-27): ignored names, or names starting
with a dot. -/
def shouldIgnoreFile (filename : Str) : Bool :=
  IGNORED_FILES.contains filename || (litStr ".").isPrefixOf filename

/-- Membership in the character class `[a-zA-Z0-9.-]` of the sanitizing regex in
`uploadImage` (part_000 line 62). -/
def isSafeChar (c : Char) : Bool :=
  (97 ≤ c.toNat && c.toNat ≤ 122) || (65 ≤ c.toNat && c.toNat ≤ 90) ||
  (48 ≤ c.toNat && c.toNat ≤ 57) || c == '.' || c == '-'

/-- `file.name.replace(/[^a-zA-Z0-9.-]/g, '_')`. -/
def sanitizeFileName (name : Str) : Str :=
  name.map (fun c => if isSafeChar c then c else '_')

/-- Membership in the character class `[a-zA-Z0-9-.]` of the sanitizing regex in
the older `uploadService.ts` variant (line 32); same set, dash and dot listed in
the opposite order. -/
def isSafeCharOld (c : Char) : Bool :=
  (97 ≤ c.toNat && c.toNat ≤ 122) || (65 ≤ c.toNat && c.toNat ≤ 90) ||
  (48 ≤ c.toNat && c.toNat ≤ 57) || c == '-' || c == '.'

/-- `file.name.replace(/[^a-zA-Z0-9-.]/g, '_')` from `uploadService.ts`. -/
def oldSanitizeFileName (name : Str) : Str :=
  name.map (fun c => if isSafeCharOld c then c else '_')

/-- The digit character for `n < 10`. -/
def digitChar (n : Nat) : Char := Char.ofNat (48 + n)

/-- Fuelled decimal rendering: one digit is produced per unit of fuel. -/
def natDecAux : Nat → Nat → Str
  | 0, _ => []
  | fuel + 1, n =>
    if n < 10 then [digitChar n]
    else natDecAux fuel (n / 10) ++ [digitChar (n % 10)]

/-- Decimal rendering of a natural number, modelling the JS template
interpolation of `new Date().getTime()` (a nonnegative integer); `n + 1`
units of fuel always cover the `⌊log₁₀ n⌋ + 1` digits. -/
def natDec (n : Nat) : Str := natDecAux (n + 1) n

/-- `` `${timestamp}-${safeFileName}` `` (part_000 line 63). -/
def uploadFileName (t : Nat) (name : Str) : Str :=
  natDec t ++ litStr "-" ++ sanitizeFileName name

/-- The filename composed by the older `uploadService.ts` variant. -/
def oldUploadFileName (t : Nat) (name : Str) : Str :=
  natDec t ++ litStr "-" ++ oldSanitizeFileName name

/-- The fixed directory `public/images`. -/
def imagesDir : Str := litStr "public/images"

/-- GitHub configuration read from the environment; a missing variable is
modelled as the empty string (both are falsy in JS). -/
structure Config where
  token : Str
  owner : Str
  repo : Str
deriving DecidableEq

/-- `!GITHUB_TOKEN || !REPO_OWNER || !REPO_NAME` is the failure condition;
`configOk` is its negation. -/
def configOk (cfg : Config) : Bool :=
  !cfg.token.isEmpty && !cfg.owner.isEmpty && !cfg.repo.isEmpty

/-- `` `https://raw.githubusercontent.com/${REPO_OWNER}/${REPO_NAME}/${BRANCH}/${path}` ``
with `BRANCH = 'main'`. -/
def rawUrl (cfg : Config) (path : Str) : Str :=
  litStr "https://raw.githubusercontent.com/" ++ cfg.owner ++ litStr "/" ++ cfg.repo ++
    litStr "/main/" ++ path

/-- One entry of a GitHub directory listing (`name`, `type`, `sha`); the API
guarantees `path = <directory>/<name>`, so `path` is derived (`entryPath`). -/
structure DirEntry where
  name : Str
  type : Str
  sha : Str
deriving DecidableEq

/-- The `path` field the GitHub API reports for an entry of `public/images`. -/
def entryPath (e : DirEntry) : Str := litStr "public/images/" ++ e.name

/-- Outcome of one `octokit.repos.getContent` call: a file object, a directory
listing (an array), or a thrown error carrying an HTTP status. -/
inductive ContentResp where
  | file (sha : Str)
  | dir (entries : List DirEntry)
  | err (status : Nat)
deriving DecidableEq

/-- A network request issued by the adapter. -/
inductive NetCall where
  | getContent (path : Str)
  | createFile (path : Str) (message : Str)
  | deleteFile (path : Str) (message : Str) (sha : Str)
deriving DecidableEq

/-- Whether a network call writes to the backing store. -/
def isWriteCall : NetCall → Bool
  | .createFile _ _ => true
  | _ => false

/-- Whether a `getContent` outcome found existing content. -/
def contentFound : ContentResp → Bool
  | .file _ => true
  | .dir _ => true
  | .err _ => false

/-- `Except` success as a boolean. -/
def isOkE : Except ε α → Bool
  | .ok _ => true
  | .error _ => false

deriving instance DecidableEq for Except

/-- Descending-by-name comparator, modelling
`(a, b) => b.name.localeCompare(a.name)` with `localeCompare` taken as
code-point comparison. `strLe a b` holds when `a ≤ b` lexicographically. -/
def strLe : Str → Str → Bool
  | [], _ => true
  | _ :: _, [] => false
  | a :: as, b :: bs => if a < b then true else if b < a then false else strLe as bs

/-- The sort order used by `getUploadedImages`: `a` may precede `b` when
`a.name ≥ b.name`. -/
def descByName (a b : DirEntry) : Bool := strLe b.name a.name

/-- The filter predicate of `getUploadedImages` (part_000 lines 170-179):
files only, not ignored, image extension. -/
def keepEntry (e : DirEntry) : Bool :=
  e.type == litStr "file" && !shouldIgnoreFile e.name && isImageFile e.name

/-- `getUploadedImages` (part_000 lines 155-196), with the single
`getContent('public/images')` response supplied as `resp`. A missing
configuration throws, and every thrown error is caught and turned into `[]`
(404 and non-404 alike); a non-array response also yields `[]`. -/
def getUploadedImages (cfg : Config) (resp : ContentResp) : List Str :=
  if !configOk cfg then []
  else
    match resp with
    | .dir contents =>
        (((contents.filter keepEntry).mergeSort descByName).map
          (fun file => rawUrl cfg (entryPath file)))
    | .file _ => []
    | .err _ => []

/-- A file handed to `uploadImage`: declared name and byte size. The payload
bytes and their base64 encoding are not inspected by any modelled property. -/
structure UploadFile where
  name : Str
  size : Nat
deriving DecidableEq

/-- The errors `uploadImage` can throw. -/
inductive UploadError where
  | configMissing
  | notImage
  | tooLarge
  | alreadyExists
  | backend (status : Nat)
deriving DecidableEq

/-- `const maxSize = 25 * 1024 * 1024`. -/
def maxFileSize : Nat := 25 * 1024 * 1024

/-- Response body of `createOrUpdateFileContents`; the adapter never reads it
(the URL is rebuilt from the fixed coordinates instead). -/
structure WriteResp where
  downloadUrl : Str
deriving DecidableEq

/-- Network environment for one `uploadImage` call: outcome of the existence
probe and outcome of the write. -/
structure UploadEnv where
  probe : ContentResp
  write : Except Nat WriteResp

/-- Shallow embedding of `uploadImage` (part_000 lines 29-109).  Returns the
call's result together with the trace of network requests issued, in order.
The probe's catch rethrows any error whose status is not 404, and the
`'A file with this name already exists'` error (no status field) escapes the
catch the same way. Progress callbacks and the FileReader step are pure
bookkeeping and are not modelled. -/
def uploadImage (cfg : Config) (f : UploadFile) (t : Nat) (env : UploadEnv) :
    Except UploadError Str × List NetCall :=
  if !configOk cfg then (.error .configMissing, [])
  else if !isImageFile f.name then (.error .notImage, [])
  else if maxFileSize < f.size then (.error .tooLarge, [])
  else
    let fileName := uploadFileName t f.name
    let path := litStr "public/images/" ++ fileName
    match env.probe with
    | .file _ => (.error .alreadyExists, [.getContent path])
    | .dir _ => (.error .alreadyExists, [.getContent path])
    | .err s =>
      if s ≠ 404 then (.error (.backend s), [.getContent path])
      else
        match env.write with
        | .error w =>
            (.error (.backend w),
             [.getContent path, .createFile path (litStr "Upload image: " ++ fileName)])
        | .ok _ =>
            (.ok (rawUrl cfg path),
             [.getContent path, .createFile path (litStr "Upload image: " ++ fileName)])

/-- A snapshot of the backing store's `public/images` directory: `none` when
the directory does not exist, otherwise its listing. -/
abbrev DirState := Option (List DirEntry)

/-- `getContent` of `public/images/<nm>` against a directory snapshot: the file
object when a file of that name exists, an array for a nested directory, and a
thrown 404 otherwise (also when the directory itself is absent). -/
def getContentAt (st : DirState) (nm : Str) : ContentResp :=
  match (st.getD []).find? (fun e => e.name == nm) with
  | some e => if e.type == litStr "file" then .file e.sha else .dir []
  | none => .err 404

/-- Revision tag the backing store assigns to a fresh write. -/
def newSha : Str := litStr "newsha"

/-- `createOrUpdateFileContents` without a base `sha` against a directory
snapshot: the backing store rejects the call on an existing path (HTTP 422)
and otherwise records the new file, materialising the directory if needed. -/
def createFileInState (st : DirState) (nm : Str) : Except Nat (List DirEntry) :=
  match (st.getD []).find? (fun e => e.name == nm) with
  | some _ => .error 422
  | none => .ok ((st.getD []) ++ [⟨nm, litStr "file", newSha⟩])

/-- The network environment a directory snapshot induces for `uploadImage`'s
candidate path `public/images/<nm>`. -/
def storeEnv (st : DirState) (nm : Str) : UploadEnv :=
  { probe := getContentAt st nm
    write := (createFileInState st nm).map (fun _ => { downloadUrl := litStr "" }) }

/-- `uploadImage` run against a directory snapshot: the result URL together
with the resulting snapshot. -/
def storeInState (cfg : Config) (f : UploadFile) (t : Nat) (st : DirState) :
    Except UploadError (Str × DirState) :=
  match (uploadImage cfg f t (storeEnv st (uploadFileName t f.name))).1 with
  | .error e => .error e
  | .ok url =>
    match createFileInState st (uploadFileName t f.name) with
    | .error s => .error (.backend s)
    | .ok l => .ok (url, some l)

/-- The `getContent('public/images')` response a directory snapshot induces. -/
def dirResp : DirState → ContentResp
  | none => .err 404
  | some l => .dir l

/-- `getUploadedImages` run against a directory snapshot. -/
def listOnState (cfg : Config) (st : DirState) : List Str :=
  getUploadedImages cfg (dirResp st)

/-- The single error of the older `uploadService.ts` variant: its catch block
wraps every failure into one generic error. -/
inductive OldError where
  | failed
deriving DecidableEq

/-- Shallow embedding of `uploadImage` from `uploadService.ts` (lines 10-60),
run against a directory snapshot: no type/size validation, no existence probe,
and every thrown error is wrapped into the generic failure. -/
def oldStoreInState (cfg : Config) (f : UploadFile) (t : Nat) (st : DirState) :
    Except OldError (Str × DirState) :=
  if !configOk cfg then .error .failed
  else
    let fileName := oldUploadFileName t f.name
    match createFileInState st fileName with
    | .error _ => .error .failed
    | .ok l => .ok (rawUrl cfg (litStr "public/images/" ++ fileName), some l)

/-- `` `${BRANCH}/` `` with `BRANCH = 'main'`: the separator `deleteImage`
splits the URL on. -/
def branchMarker : Str := litStr "main/"

/-- Fuelled left-to-right split on the branch marker: at least one unit of
fuel is consumed per character, so `s.length` units always suffice. -/
def splitOnMarkerAux : Nat → Str → List Str
  | 0, s => [s]
  | fuel + 1, s =>
    match s with
    | [] => [[]]
    | c :: rest =>
      if branchMarker.isPrefixOf (c :: rest) then
        [] :: splitOnMarkerAux fuel (rest.drop 4)
      else
        match splitOnMarkerAux fuel rest with
        | [] => [[c]]
        | p :: ps => (c :: p) :: ps

/-- `url.split('main/')`, modelling `String.prototype.split` with a non-empty
string separator: left-to-right scan, non-overlapping matches. -/
def splitOnMarker (s : Str) : List Str := splitOnMarkerAux s.length s

/-- `path.split('/').pop()`: the last slash-separated segment. -/
def lastSegment (s : Str) : Str :=
  (s.reverse.takeWhile (fun c => c != '/')).reverse

/-- The errors `deleteImage` can throw. -/
inductive DeleteError where
  | configMissing
  | invalidUrl
  | notFile
  | backend (status : Nat)
deriving DecidableEq

/-- Network environment for one `deleteImage` call: outcome of the
`getContent` fetch for the revision tag, and outcome of `deleteFile`. -/
structure DeleteEnv where
  get : ContentResp
  del : Except Nat Unit

/-- Shallow embedding of `deleteImage` (part_000 lines 111-152): split the URL
on the branch marker, reject when fewer than two parts result, otherwise fetch
the sha at `urlParts[1]` and issue the delete. A directory response has no
`sha` field, so it is rejected; fetch errors propagate. -/
def deleteImage (cfg : Config) (url : Str) (env : DeleteEnv) :
    Except DeleteError Unit × List NetCall :=
  if !configOk cfg then (.error .configMissing, [])
  else
    match splitOnMarker url with
    | _ :: path :: _ =>
      match env.get with
      | .file sha =>
        let msg := litStr "Delete image: " ++ lastSegment path
        match env.del with
        | .ok _ => (.ok (), [.getContent path, .deleteFile path msg sha])
        | .error s => (.error (.backend s), [.getContent path, .deleteFile path msg sha])
      | .dir _ => (.error .notFile, [.getContent path])
      | .err s => (.error (.backend s), [.getContent path])
    | _ => (.error .invalidUrl, [])

/-- The single error of `ensureImagesDirectory`: its catch block wraps every
failure into one generic error. -/
inductive EnsureError where
  | failed
deriving DecidableEq

/-- Network environment for one `ensureImagesDirectory` call: outcome of the
directory read and outcome of the `.gitkeep` write. -/
structure EnsureEnv where
  read : ContentResp
  write : Except Nat WriteResp

/-- The placeholder path `public/images/.gitkeep`. -/
def gitkeepPath : Str := litStr "public/images/.gitkeep"

/-- Shallow embedding of `ensureImagesDirectory` (part_000 lines 228-261):
read the directory; on a 404 create `.gitkeep` through the same
create-or-update request `uploadImage` uses; propagate any other read failure
(wrapped by the outer catch into the generic error). -/
def ensureImagesDirectory (cfg : Config) (env : EnsureEnv) :
    Except EnsureError Unit × List NetCall :=
  if !configOk cfg then (.error .failed, [])
  else
    match env.read with
    | .file _ => (.ok (), [.getContent imagesDir])
    | .dir _ => (.ok (), [.getContent imagesDir])
    | .err s =>
      if s = 404 then
        match env.write with
        | .ok _ =>
            (.ok (), [.getContent imagesDir,
                      .createFile gitkeepPath (litStr "Create images directory")])
        | .error _ =>
            (.error .failed,
             [.getContent imagesDir,
              .createFile gitkeepPath (litStr "Create images directory")])
      else (.error .failed, [.getContent imagesDir])

/-- The spec's regular expression `^[A-Za-z0-9.-]+$`: nonempty, all characters
in the class. -/
def specRegexSafe (s : Str) : Bool := !s.isEmpty && s.all isSafeChar

/-- Whether the branch marker occurs anywhere in the string. -/
def containsMarker : Str → Bool
  | [] => false
  | c :: rest => branchMarker.isPrefixOf (c :: rest) || containsMarker rest

/-- The part of the string strictly before the first marker occurrence (the
whole string when the marker is absent). -/
def takeBeforeMarker : Str → Str
  | [] => []
  | c :: rest =>
    if branchMarker.isPrefixOf (c :: rest) then [] else c :: takeBeforeMarker rest

/-- The remainder of the string after the first marker occurrence, when the
marker occurs. -/
def remainderAfterMarker : Str → Option Str
  | [] => none
  | c :: rest =>
    if branchMarker.isPrefixOf (c :: rest) then some (rest.drop 4)
    else remainderAfterMarker rest

/-! Concrete values used by witnesses and counterexamples. -/

/-- A present configuration. -/
def cfgDemo : Config := ⟨litStr "token", litStr "owner", litStr "repo"⟩

/-- A missing configuration (all environment variables empty). -/
def cfgNone : Config := ⟨[], [], []⟩

/-- A directory entry as listed by the backing store. -/
def entryDemo : DirEntry := ⟨litStr "1-a.jpg", litStr "file", litStr "sha1"⟩

/-- A small valid JPEG payload. -/
def fileSmallJpg : UploadFile := ⟨litStr "a.jpg", 5⟩

/-- A 30 MB JPEG payload. -/
def fileBigJpeg : UploadFile := ⟨litStr "photo.jpg", 30 * 1024 * 1024⟩

/-- A non-image payload. -/
def fileTxt : UploadFile := ⟨litStr "notes.txt", 100⟩

/-- An environment whose probe reports "not found" and whose write succeeds. -/
def envProbe404 : UploadEnv := ⟨.err 404, .ok ⟨[]⟩⟩

/-- An existing but empty images directory. -/
def stEmpty : DirState := some []

/-! ## Claim C2: sanitization -/

/--
**C2, counterexample.** The claim states that every sanitized name matches
`^[A-Za-z0-9.-]+$`.  Sanitizing `"a b.jpg"` yields `"a_b.jpg"`, whose
underscore is outside that character class, so the claim fails as stated.
-/
theorem claim_C2_counterexample :
    sanitizeFileName (litStr "a b.jpg") = litStr "a_b.jpg" ∧
    specRegexSafe (sanitizeFileName (litStr "a b.jpg")) = false := by
  constructor <;> decide

/--
**C2 (amended).** Sanitization is total and idempotent: every character of a
sanitized name lies in `[A-Za-z0-9.-]` or is the replacement character `'_'`
(so the output matches `^[A-Za-z0-9._-]*$`, empty only for the empty input),
and sanitizing an already-sanitized name yields the same string.
-/
theorem claim_C2 (name : Str) :
    (sanitizeFileName name).all (fun c => isSafeChar c || c == '_') = true ∧
    sanitizeFileName (sanitizeFileName name) = sanitizeFileName name := by
  constructor
  · rw [sanitizeFileName, List.all_map, List.all_eq_true]
    intro c _
    by_cases h : isSafeChar c = true <;> simp [Function.comp, h]
  · rw [sanitizeFileName, sanitizeFileName, List.map_map]
    apply List.map_congr_left
    intro c _
    by_cases h : isSafeChar c = true <;> simp [Function.comp, h]

/-- Witness for the amended C2 at a concrete name containing a space. -/
theorem claim_C2_witness :
    (sanitizeFileName (litStr "my photo.jpg")).all
      (fun c => isSafeChar c || c == '_') = true ∧
    sanitizeFileName (sanitizeFileName (litStr "my photo.jpg")) =
      sanitizeFileName (litStr "my photo.jpg") :=
  claim_C2 (litStr "my photo.jpg")

/-! ## Claim C3: list never raises -/

/--
**C3.** `list()` never raises: the modelled `getUploadedImages` is a total
function into plain lists; a directory read that fails with any status —
404 ("directory not found") included — yields `[]`, and a missing
configuration also yields `[]` whatever the backend would have answered.
-/
theorem claim_C3 :
    (∀ (cfg : Config) (s : Nat), getUploadedImages cfg (.err s) = []) ∧
    (∀ (cfg : Config) (resp : ContentResp),
      configOk cfg = false → getUploadedImages cfg resp = []) := by
  constructor
  · intro cfg s
    unfold getUploadedImages
    by_cases h : configOk cfg <;> simp [h]
  · intro cfg resp h
    simp [getUploadedImages, h]

/-- Witness for C3 at concrete inputs: a 500-status read with a present
configuration, and a successful directory read with a missing configuration. -/
theorem claim_C3_witness :
    getUploadedImages cfgDemo (.err 500) = [] ∧
    getUploadedImages cfgNone (.dir [entryDemo]) = [] :=
  ⟨claim_C3.1 cfgDemo 500, claim_C3.2 cfgNone (.dir [entryDemo]) (by decide)⟩

/-! ## Claim C5: validation happens before any network call -/

/--
**C5.** With the configuration present, a payload whose declared name fails
the image-extension check or whose size exceeds 25 MiB is rejected with a
validation error and the network trace is empty: no request reaches the
backing store.
-/
theorem claim_C5 (cfg : Config) (f : UploadFile) (t : Nat) (env : UploadEnv)
    (hcfg : configOk cfg = true)
    (h : isImageFile f.name = false ∨ maxFileSize < f.size) :
    (uploadImage cfg f t env).2 = [] ∧
    ((uploadImage cfg f t env).1 = .error .notImage ∨
     (uploadImage cfg f t env).1 = .error .tooLarge) := by
  rcases h with h | h
  · simp [uploadImage, hcfg, h]
  · by_cases hi : isImageFile f.name = true
    · simp [uploadImage, hcfg, hi, h]
    · rw [Bool.not_eq_true] at hi
      simp [uploadImage, hcfg, hi]

/-- Witness for C5: a 30 MB JPEG is rejected with no network call. -/
theorem claim_C5_witness :
    configOk cfgDemo = true ∧
    (isImageFile fileBigJpeg.name = false ∨ maxFileSize < fileBigJpeg.size) ∧
    ((uploadImage cfgDemo fileBigJpeg 7 envProbe404).2 = [] ∧
     ((uploadImage cfgDemo fileBigJpeg 7 envProbe404).1 = .error .notImage ∨
      (uploadImage cfgDemo fileBigJpeg 7 envProbe404).1 = .error .tooLarge)) :=
  ⟨by decide, by decide,
    claim_C5 cfgDemo fileBigJpeg 7 envProbe404 (by decide) (by decide)⟩

/-! ## Claim C6: probe-then-write -/

/--
**C6.** For a configured call with a valid payload, the write request is
issued exactly when the probe answers 404; the call succeeds exactly when the
probe answers 404 and the write succeeds; and when the probe finds existing
content the call fails as a naming collision — so in both refusal cases
(content found, or a probe error other than 404) no write request is issued.
-/
theorem claim_C6 (cfg : Config) (f : UploadFile) (t : Nat) (env : UploadEnv)
    (hcfg : configOk cfg = true)
    (himg : isImageFile f.name = true)
    (hsize : f.size ≤ maxFileSize) :
    ((uploadImage cfg f t env).2.any isWriteCall = (env.probe == ContentResp.err 404)) ∧
    (isOkE (uploadImage cfg f t env).1 =
      ((env.probe == ContentResp.err 404) && isOkE env.write)) ∧
    (contentFound env.probe = true →
      (uploadImage cfg f t env).1 = .error .alreadyExists) := by
  have hsz : ¬ (maxFileSize < f.size) := by omega
  cases hp : env.probe with
  | file sha =>
      simp [uploadImage, hcfg, himg, hsz, hp, isWriteCall, isOkE, contentFound]
  | dir l =>
      simp [uploadImage, hcfg, himg, hsz, hp, isWriteCall, isOkE, contentFound]
  | err s =>
      by_cases h4 : s = 404
      · subst h4
        cases hw : env.write <;>
          simp [uploadImage, hcfg, himg, hsz, hp, hw, isWriteCall, isOkE, contentFound]
      · simp [uploadImage, hcfg, himg, hsz, hp, h4, isWriteCall, isOkE, contentFound]

/-- Witness for C6 at a concrete input: valid payload, probe answering 404,
successful write. -/
theorem claim_C6_witness :
    configOk cfgDemo = true ∧ isImageFile fileSmallJpg.name = true ∧
    fileSmallJpg.size ≤ maxFileSize ∧
    (((uploadImage cfgDemo fileSmallJpg 3 envProbe404).2.any isWriteCall =
        (envProbe404.probe == ContentResp.err 404)) ∧
     (isOkE (uploadImage cfgDemo fileSmallJpg 3 envProbe404).1 =
        ((envProbe404.probe == ContentResp.err 404) && isOkE envProbe404.write)) ∧
     (contentFound envProbe404.probe = true →
        (uploadImage cfgDemo fileSmallJpg 3 envProbe404).1 = .error .alreadyExists)) :=
  ⟨by decide, by decide, by decide,
    claim_C6 cfgDemo fileSmallJpg 3 envProbe404 (by decide) (by decide) (by decide)⟩

/-! ## Claim C7: the returned URL is composed, not read from the response -/

/--
**C7.** Whenever `uploadImage` succeeds, the returned URL is exactly
`https://raw.githubusercontent.com/<owner>/<repo>/main/public/images/<millis>-<sanitized-name>`,
composed from the fixed coordinates, the timestamp and the sanitized name
alone — the write response (`env.write`) carries a `downloadUrl` field that
never reaches the result.
-/
theorem claim_C7 (cfg : Config) (f : UploadFile) (t : Nat) (env : UploadEnv)
    (u : Str) (h : (uploadImage cfg f t env).1 = .ok u) :
    u = litStr "https://raw.githubusercontent.com/" ++ cfg.owner ++ litStr "/" ++
        cfg.repo ++ litStr "/main/" ++ litStr "public/images/" ++ natDec t ++
        litStr "-" ++ sanitizeFileName f.name := by
  unfold uploadImage at h
  repeat' split at h
  all_goals simp at h
  subst h
  simp [rawUrl, uploadFileName, List.append_assoc]

/-- Witness for C7 at a concrete successful call. -/
theorem claim_C7_witness :
    (uploadImage cfgDemo fileSmallJpg 3 envProbe404).1 =
      .ok (litStr "https://raw.githubusercontent.com/owner/repo/main/public/images/3-a.jpg") ∧
    litStr "https://raw.githubusercontent.com/owner/repo/main/public/images/3-a.jpg" =
      litStr "https://raw.githubusercontent.com/" ++ cfgDemo.owner ++ litStr "/" ++
      cfgDemo.repo ++ litStr "/main/" ++ litStr "public/images/" ++ natDec 3 ++
      litStr "-" ++ sanitizeFileName fileSmallJpg.name :=
  ⟨by decide,
    claim_C7 cfgDemo fileSmallJpg 3 envProbe404
      (litStr "https://raw.githubusercontent.com/owner/repo/main/public/images/3-a.jpg")
      (by decide)⟩

/-! ## Claim C9: existence bootstrap -/

/--
**C9.** For a configured call, the bootstrap reads the directory and: when the
read finds content (the directory exists) it is a no-op — success with no
write issued; when the read fails with 404 it issues exactly one further
request, the same create-or-update call `uploadImage` uses
(`NetCall.createFile`), targeting `public/images/.gitkeep`, and succeeds iff
that write succeeds; any other read failure propagates as an error with no
write issued.
-/
theorem claim_C9 (cfg : Config) (env : EnsureEnv) (hcfg : configOk cfg = true) :
    (contentFound env.read = true →
       ensureImagesDirectory cfg env = (.ok (), [.getContent imagesDir])) ∧
    (env.read = .err 404 →
       (ensureImagesDirectory cfg env).2 =
         [.getContent imagesDir,
          .createFile gitkeepPath (litStr "Create images directory")] ∧
       isOkE (ensureImagesDirectory cfg env).1 = isOkE env.write) ∧
    (contentFound env.read = false → env.read ≠ .err 404 →
       ensureImagesDirectory cfg env = (.error .failed, [.getContent imagesDir])) := by
  cases hr : env.read with
  | file sha => simp [ensureImagesDirectory, hcfg, hr, contentFound]
  | dir l => simp [ensureImagesDirectory, hcfg, hr, contentFound]
  | err s =>
      by_cases h4 : s = 404
      · subst h4
        cases hw : env.write <;>
          simp [ensureImagesDirectory, hcfg, hr, hw, contentFound, isOkE]
      · simp [ensureImagesDirectory, hcfg, hr, h4, contentFound]

/-- An environment whose directory read answers 404 and whose `.gitkeep`
write succeeds. -/
def envEnsure404 : EnsureEnv := ⟨.err 404, .ok ⟨[]⟩⟩

/-- Witness for C9 at a concrete input: directory absent, write succeeding. -/
theorem claim_C9_witness :
    configOk cfgDemo = true ∧
    ((contentFound envEnsure404.read = true →
        ensureImagesDirectory cfgDemo envEnsure404 = (.ok (), [.getContent imagesDir])) ∧
     (envEnsure404.read = .err 404 →
        (ensureImagesDirectory cfgDemo envEnsure404).2 =
          [.getContent imagesDir,
           .createFile gitkeepPath (litStr "Create images directory")] ∧
        isOkE (ensureImagesDirectory cfgDemo envEnsure404).1 = isOkE envEnsure404.write) ∧
     (contentFound envEnsure404.read = false → envEnsure404.read ≠ .err 404 →
        ensureImagesDirectory cfgDemo envEnsure404 = (.error .failed, [.getContent imagesDir]))) :=
  ⟨by decide, claim_C9 cfgDemo envEnsure404 (by decide)⟩

/-! ## Claim C10: the two uploadImage implementations -/

/-- Agreement of one run of each variant: both fail, or both succeed with the
same URL and the same resulting snapshot. -/
def resultsAgree (r : Except UploadError (Str × DirState))
    (s : Except OldError (Str × DirState)) : Bool :=
  match r, s with
  | .ok a, .ok b => a == b
  | .error _, .error _ => true
  | _, _ => false

/--
**C10, counterexample.** The two variants are not equivalent: on the payload
`notes.txt` over an existing empty directory, the `part_000` variant rejects
(no image extension) while the `uploadService.ts` variant succeeds and writes
the file.
-/
theorem claim_C10_counterexample :
    isOkE (storeInState cfgDemo fileTxt 5 stEmpty) = false ∧
    isOkE (oldStoreInState cfgDemo fileTxt 5 stEmpty) = true := by
  constructor <;> decide

/-- The two character classes `[a-zA-Z0-9.-]` and `[a-zA-Z0-9-.]` coincide. -/
theorem safeCharOld_eq_safeChar (c : Char) : isSafeCharOld c = isSafeChar c := by
  unfold isSafeChar isSafeCharOld
  cases hd : (c == '.') <;> cases hh : (c == '-') <;> simp [hd, hh]

/-- The two sanitizers coincide. -/
theorem oldSanitize_eq_sanitize (name : Str) :
    oldSanitizeFileName name = sanitizeFileName name := by
  simp only [oldSanitizeFileName, sanitizeFileName, safeCharOld_eq_safeChar]

/-- The two composed filenames coincide. -/
theorem oldUploadFileName_eq (t : Nat) (name : Str) :
    oldUploadFileName t name = uploadFileName t name := by
  simp only [oldUploadFileName, uploadFileName, oldSanitize_eq_sanitize]

/--
**C10 (amended).** For every payload that passes the newer variant's
validations (recognized image extension, size within the 25 MiB ceiling), the
two `uploadImage` implementations agree on every backing-store snapshot:
either both fail, or both succeed with the same returned URL and the same
resulting snapshot.  For payloads failing validation they differ (see the
counterexample): the newer variant rejects while the older one uploads.
-/
theorem claim_C10 (cfg : Config) (f : UploadFile) (t : Nat) (st : DirState)
    (himg : isImageFile f.name = true) (hsize : f.size ≤ maxFileSize) :
    resultsAgree (storeInState cfg f t st) (oldStoreInState cfg f t st) = true := by
  have hsz : ¬ (maxFileSize < f.size) := by omega
  by_cases hcfg : configOk cfg = true
  · rw [storeInState, oldStoreInState, oldUploadFileName_eq]
    cases hfind : (st.getD []).find? (fun e => e.name == uploadFileName t f.name) with
    | some e =>
        have hcr : createFileInState st (uploadFileName t f.name) = .error 422 := by
          rw [createFileInState, hfind]
        by_cases hty : e.type == litStr "file"
        all_goals
          simp [uploadImage, storeEnv, getContentAt, Except.map, hcfg, himg, hsz, hfind,
                hty, hcr, resultsAgree]
    | none =>
        have hcr : createFileInState st (uploadFileName t f.name) =
            .ok ((st.getD []) ++ [⟨uploadFileName t f.name, litStr "file", newSha⟩]) := by
          rw [createFileInState, hfind]
        simp [uploadImage, storeEnv, getContentAt, Except.map, hcfg, himg, hsz, hfind, hcr,
              resultsAgree]
  · rw [Bool.not_eq_true] at hcfg
    simp [storeInState, oldStoreInState, uploadImage, hcfg, resultsAgree]

/-- Witness for C10 at a concrete valid payload and empty directory. -/
theorem claim_C10_witness :
    isImageFile fileSmallJpg.name = true ∧ fileSmallJpg.size ≤ maxFileSize ∧
    resultsAgree (storeInState cfgDemo fileSmallJpg 5 stEmpty)
      (oldStoreInState cfgDemo fileSmallJpg 5 stEmpty) = true :=
  ⟨by decide, by decide, claim_C10 cfgDemo fileSmallJpg 5 stEmpty (by decide) (by decide)⟩

/-! ## Claim C8: remove's URL parsing -/

/-- The split never produces an empty list of parts. -/
theorem splitAux_ne_nil (fuel : Nat) (s : Str) : splitOnMarkerAux fuel s ≠ [] := by
  match fuel, s with
  | 0, s => simp [splitOnMarkerAux]
  | fuel + 1, [] => simp [splitOnMarkerAux]
  | fuel + 1, c :: rest =>
    rw [splitOnMarkerAux]
    split
    · simp
    · cases h : splitOnMarkerAux fuel rest <;> simp

/-- The first part of the split is the prefix before the first marker. -/
theorem splitAux_head (fuel : Nat) (s : Str) (h : s.length ≤ fuel) :
    (splitOnMarkerAux fuel s).head? = some (takeBeforeMarker s) := by
  induction fuel generalizing s with
  | zero =>
      have hs : s = [] := List.length_eq_zero.mp (Nat.le_zero.mp h)
      subst hs; simp [splitOnMarkerAux, takeBeforeMarker]
  | succ fuel ih =>
      cases s with
      | nil => simp [splitOnMarkerAux, takeBeforeMarker]
      | cons c rest =>
          rw [splitOnMarkerAux, takeBeforeMarker]
          by_cases hm : branchMarker.isPrefixOf (c :: rest) = true
          · simp [hm]
          · have hr : rest.length ≤ fuel := by
              simp only [List.length_cons] at h; omega
            have hh := ih rest hr
            cases hsp : splitOnMarkerAux fuel rest with
            | nil => exact absurd hsp (splitAux_ne_nil fuel rest)
            | cons p ps =>
                rw [hsp] at hh
                simp only [List.head?_cons, Option.some.injEq] at hh
                simp [hm, hsp, hh]

/-- The second part of the split is the segment between the first marker and
the next one (the full remainder when the marker occurs just once), and is
absent exactly when the marker does not occur. -/
theorem splitAux_second (fuel : Nat) (s : Str) (h : s.length ≤ fuel) :
    (splitOnMarkerAux fuel s)[1]? = (remainderAfterMarker s).map takeBeforeMarker := by
  induction fuel generalizing s with
  | zero =>
      have hs : s = [] := List.length_eq_zero.mp (Nat.le_zero.mp h)
      subst hs; simp [splitOnMarkerAux, remainderAfterMarker]
  | succ fuel ih =>
      cases s with
      | nil => simp [splitOnMarkerAux, remainderAfterMarker]
      | cons c rest =>
          rw [splitOnMarkerAux, remainderAfterMarker]
          by_cases hm : branchMarker.isPrefixOf (c :: rest) = true
          · have hd : (rest.drop 4).length ≤ fuel := by
              simp only [List.length_drop, List.length_cons] at *; omega
            simp only [hm, if_true, List.getElem?_cons_succ, Option.map_some]
            rw [← List.head?_eq_getElem?]
            exact splitAux_head fuel (rest.drop 4) hd
          · have hr : rest.length ≤ fuel := by
              simp only [List.length_cons] at h; omega
            have hh := ih rest hr
            cases hsp : splitOnMarkerAux fuel rest with
            | nil => exact absurd hsp (splitAux_ne_nil fuel rest)
            | cons p ps =>
                rw [hsp] at hh
                simp only [hm, if_false, Bool.false_eq_true, hsp]
                simpa using hh

/-- When the marker is absent the split returns the whole string as the only
part. -/
theorem splitAux_no_marker (fuel : Nat) (s : Str) (h : containsMarker s = false) :
    splitOnMarkerAux fuel s = [s] := by
  induction fuel generalizing s with
  | zero => simp [splitOnMarkerAux]
  | succ fuel ih =>
      cases s with
      | nil => simp [splitOnMarkerAux]
      | cons c rest =>
          rw [containsMarker] at h
          simp only [Bool.or_eq_false_iff] at h
          rw [splitOnMarkerAux]
          simp only [h.1, Bool.false_eq_true, if_false]
          rw [ih rest h.2]

/-- The marker occurs exactly when `remainderAfterMarker` produces a value. -/
theorem remainder_isSome (s : Str) :
    (remainderAfterMarker s).isSome = containsMarker s := by
  induction s with
  | nil => rfl
  | cons c rest ih =>
      rw [remainderAfterMarker, containsMarker]
      by_cases hm : branchMarker.isPrefixOf (c :: rest) = true <;> simp [hm, ih]

/--
**C8 (amended).** With the configuration present, `deleteImage` rejects every
URL not containing the branch marker `main/` as malformed before any network
call; for a URL containing the marker, the storage path submitted to the
backing store (the path of the first network call) is the segment of the URL
between the first marker occurrence and the next one — which equals the full
remainder after the marker only when the marker occurs exactly once.
-/
theorem claim_C8 (cfg : Config) (url : Str) (env : DeleteEnv)
    (hcfg : configOk cfg = true) :
    (containsMarker url = false →
        deleteImage cfg url env = (.error .invalidUrl, [])) ∧
    (containsMarker url = true →
        (deleteImage cfg url env).2.head? =
          (remainderAfterMarker url).map
            (fun r => NetCall.getContent (takeBeforeMarker r))) := by
  constructor
  · intro hnm
    have hsp : splitOnMarker url = [url] := splitAux_no_marker url.length url hnm
    simp [deleteImage, hcfg, hsp]
  · intro hm
    have hrem : (remainderAfterMarker url).isSome = true := by
      rw [remainder_isSome]; exact hm
    obtain ⟨r, hr⟩ := Option.isSome_iff_exists.mp hrem
    have h2 : (splitOnMarker url)[1]? = some (takeBeforeMarker r) := by
      rw [splitOnMarker, splitAux_second url.length url (Nat.le_refl _), hr]; rfl
    cases hsp : splitOnMarker url with
    | nil => exact absurd hsp (splitAux_ne_nil url.length url)
    | cons x xs =>
        cases xs with
        | nil => rw [hsp] at h2; simp at h2
        | cons y ys =>
            rw [hsp] at h2
            simp only [List.getElem?_cons_succ, List.getElem?_cons_zero,
              Option.some.injEq] at h2
            cases hg : env.get with
            | file sha =>
                cases hd : env.del <;> simp [deleteImage, hcfg, hsp, hg, hd, hr, h2]
            | dir l => simp [deleteImage, hcfg, hsp, hg, hr, h2]
            | err s => simp [deleteImage, hcfg, hsp, hg, hr, h2]

/-- A URL in which the marker `main/` occurs twice: once inside the owner
segment `romain/` and once as the branch segment. -/
def urlTwo : Str := litStr "https://raw.githubusercontent.com/romain/repo/main/public/images/a.jpg"

/-- A URL in which the marker `main/` occurs exactly once. -/
def urlOne : Str := litStr "https://raw.githubusercontent.com/owner/repo/main/public/images/1-a.jpg"

/-- A delete environment: the fetch finds a file and the delete succeeds. -/
def envDel : DeleteEnv := ⟨.file (litStr "sha1"), .ok ()⟩

/--
**C8, counterexample.** The claim states that for every URL containing the
marker the submitted path is the remainder of the URL after the marker.  On a
URL whose owner segment is `romain/`, the marker occurs twice: the code
submits `repo/` (the segment between the two occurrences, `urlParts[1]`),
not the remainder `repo/main/public/images/a.jpg` after the first occurrence.
-/
theorem claim_C8_counterexample :
    containsMarker urlTwo = true ∧
    (deleteImage cfgDemo urlTwo envDel).2.head? =
      some (.getContent (litStr "repo/")) ∧
    remainderAfterMarker urlTwo = some (litStr "repo/main/public/images/a.jpg") ∧
    (litStr "repo/" : Str) ≠ litStr "repo/main/public/images/a.jpg" :=
  ⟨by decide, by decide, by decide, by decide⟩

/-- Witness for the amended C8 at a URL whose marker occurs exactly once. -/
theorem claim_C8_witness :
    configOk cfgDemo = true ∧ containsMarker urlOne = true ∧
    (deleteImage cfgDemo urlOne envDel).2.head? =
      (remainderAfterMarker urlOne).map
        (fun r => NetCall.getContent (takeBeforeMarker r)) :=
  ⟨by decide, by decide, (claim_C8 cfgDemo urlOne envDel (by decide)).2 (by decide)⟩

/-! ## Claim C4: what list returns, and in which order -/

/-- The comparator is total. -/
theorem strLe_total : ∀ a b : Str, strLe a b || strLe b a := by
  intro a
  induction a with
  | nil => intro b; simp [strLe]
  | cons c as ih =>
      intro b
      cases b with
      | nil => simp [strLe]
      | cons d bs =>
          rw [strLe, strLe]
          rcases lt_trichotomy c d with h | h | h
          · simp [h]
          · subst h
            simp only [lt_self_iff_false, if_false]
            exact ih bs
          · simp [h, lt_asymm h]

/-- The comparator is transitive. -/
theorem strLe_trans : ∀ a b c : Str,
    strLe a b = true → strLe b c = true → strLe a c = true := by
  intro a
  induction a with
  | nil => intro b c _ _; simp [strLe]
  | cons x as ih =>
      intro b c hab hbc
      cases b with
      | nil => rw [strLe] at hab; exact Bool.noConfusion hab
      | cons y bs =>
          cases c with
          | nil => rw [strLe] at hbc; exact Bool.noConfusion hbc
          | cons z cs =>
              rw [strLe] at hab hbc ⊢
              rcases lt_trichotomy x y with h1 | h1 | h1
              · rcases lt_trichotomy y z with h2 | h2 | h2
                · simp [h1.trans h2]
                · subst h2; simp [h1]
                · rw [if_neg (lt_asymm h2), if_pos h2] at hbc
                  exact Bool.noConfusion hbc
              · subst h1
                rcases lt_trichotomy x z with h2 | h2 | h2
                · simp [h2]
                · subst h2
                  simp only [lt_self_iff_false, if_false] at hab hbc ⊢
                  exact ih bs cs hab hbc
                · rw [if_neg (lt_asymm h2), if_pos h2] at hbc
                  exact Bool.noConfusion hbc
              · rw [if_neg (lt_asymm h1), if_pos h1] at hab
                exact Bool.noConfusion hab

/-- Comparing two strings below a common prefix compares the suffixes. -/
theorem strLe_append_left (p x y : Str) : strLe (p ++ x) (p ++ y) = strLe x y := by
  induction p with
  | nil => rfl
  | cons c cs ih =>
      rw [List.cons_append, List.cons_append, strLe]
      simp only [lt_self_iff_false, if_false]
      exact ih

/-- `rawUrl` distributes over path concatenation. -/
theorem rawUrl_append (cfg : Config) (p q : Str) :
    rawUrl cfg (p ++ q) = rawUrl cfg p ++ q := by
  simp [rawUrl, List.append_assoc]

/--
**C4.** With the configuration present, `list()` on a directory snapshot
returns precisely the URLs of the entries that survive the three filters —
type `file`, not ignored (ignore list or leading dot), recognized image
extension case-insensitively — each mapped to its deterministic raw URL
(a permutation characterizes "exactly these"), and the result is ordered by
name descending (every earlier URL compares ≥ every later one), newest first
under the timestamp-prefix naming.
-/
theorem claim_C4 (cfg : Config) (entries : List DirEntry)
    (hcfg : configOk cfg = true) :
    List.Perm (getUploadedImages cfg (.dir entries))
      ((entries.filter keepEntry).map (fun e => rawUrl cfg (entryPath e))) ∧
    (getUploadedImages cfg (.dir entries)).Pairwise
      (fun u v => strLe v u = true) := by
  have hlist : getUploadedImages cfg (.dir entries) =
      ((entries.filter keepEntry).mergeSort descByName).map
        (fun e => rawUrl cfg (entryPath e)) := by
    simp [getUploadedImages, hcfg]
  constructor
  · rw [hlist]
    exact (List.mergeSort_perm (entries.filter keepEntry) descByName).map _
  · rw [hlist]
    have hs : ((entries.filter keepEntry).mergeSort descByName).Pairwise
        (fun a b => descByName a b = true) :=
      @List.sorted_mergeSort DirEntry descByName
        (fun a b c h1 h2 => strLe_trans c.name b.name a.name h2 h1)
        (fun a b => strLe_total b.name a.name)
        (entries.filter keepEntry)
    refine hs.map _ (fun a b hab => ?_)
    rw [entryPath, entryPath, rawUrl_append, rawUrl_append, strLe_append_left]
    exact hab

/-- A directory snapshot exercising every filter: a kept uppercase image, a
kept image, a text file, an ignored placeholder, and a nested directory. -/
def entriesDemo : List DirEntry :=
  [⟨litStr "1-a.PNG", litStr "file", litStr "s1"⟩,
   ⟨litStr "2-b.jpg", litStr "file", litStr "s2"⟩,
   ⟨litStr "notes.txt", litStr "file", litStr "s3"⟩,
   ⟨litStr ".gitkeep", litStr "file", litStr "s4"⟩,
   ⟨litStr "3-c.jpg", litStr "dir", litStr "s5"⟩]

/-- Witness for C4 on a concrete snapshot. -/
theorem claim_C4_witness :
    configOk cfgDemo = true ∧
    (List.Perm (getUploadedImages cfgDemo (.dir entriesDemo))
      ((entriesDemo.filter keepEntry).map (fun e => rawUrl cfgDemo (entryPath e))) ∧
     (getUploadedImages cfgDemo (.dir entriesDemo)).Pairwise
       (fun u v => strLe v u = true)) :=
  ⟨by decide, claim_C4 cfgDemo entriesDemo (by decide)⟩

/-! ## Claim C1: store followed by list -/

/-- A rendered decimal number starts with a digit (given fuel). -/
theorem natDecAux_head : ∀ (fuel n : Nat), 1 ≤ fuel →
    ∃ d cs, d < 10 ∧ natDecAux fuel n = digitChar d :: cs := by
  intro fuel
  induction fuel with
  | zero => intro n h; omega
  | succ fuel ih =>
      intro n _
      by_cases h : n < 10
      · exact ⟨n, [], h, by simp [natDecAux, h]⟩
      · rcases Nat.eq_zero_or_pos fuel with hf0 | hf1
        · subst hf0
          exact ⟨n % 10, [], Nat.mod_lt n (by omega), by simp [natDecAux, h]⟩
        · obtain ⟨d, cs, hd, heq⟩ := ih (n / 10) hf1
          exact ⟨d, cs ++ [digitChar (n % 10)], hd, by simp [natDecAux, h, heq]⟩

/-- A rendered decimal number starts with a digit. -/
theorem natDec_head (n : Nat) :
    ∃ d cs, d < 10 ∧ natDec n = digitChar d :: cs :=
  natDecAux_head (n + 1) n (by omega)

/-- Code point of a digit character. -/
theorem digitChar_toNat (d : Nat) (hd : d < 10) : (digitChar d).toNat = 48 + d := by
  interval_cases d <;> decide

/-- An upload filename starts with a digit. -/
theorem uploadFileName_head (t : Nat) (name : Str) :
    ∃ d cs, d < 10 ∧ uploadFileName t name = digitChar d :: cs := by
  obtain ⟨d, cs, hd, heq⟩ := natDec_head t
  refine ⟨d, cs ++ litStr "-" ++ sanitizeFileName name, hd, ?_⟩
  rw [uploadFileName, heq]
  simp [List.append_assoc]

/-- A digit character differs from every character outside the digit range. -/
theorem digitChar_ne (d : Nat) (hd : d < 10) (c : Char)
    (hc : 58 ≤ c.toNat ∨ c.toNat ≤ 47) : digitChar d ≠ c := by
  intro h
  have h1 := congrArg Char.toNat h
  rw [digitChar_toNat d hd] at h1
  omega

/-- An upload filename is neither on the ignore list nor hidden: it starts
with a digit while every refused head character is `.`, `R` or `T`. -/
theorem shouldIgnore_upload (t : Nat) (name : Str) :
    shouldIgnoreFile (uploadFileName t name) = false := by
  obtain ⟨d, cs, hd, heq⟩ := uploadFileName_head t name
  rw [heq, shouldIgnoreFile, Bool.or_eq_false_iff]
  constructor
  · rw [← Bool.not_eq_true]
    intro hc
    have hmem := List.elem_iff.mp hc
    simp only [IGNORED_FILES, List.mem_cons, List.not_mem_nil, or_false] at hmem
    rcases hmem with h | h | h | h | h
    · injection h with h1 _
      exact digitChar_ne d hd '.' (by decide) h1
    · injection h with h1 _
      exact digitChar_ne d hd '.' (by decide) h1
    · injection h with h1 _
      exact digitChar_ne d hd 'R' (by decide) h1
    · injection h with h1 _
      exact digitChar_ne d hd '.' (by decide) h1
    · injection h with h1 _
      exact digitChar_ne d hd 'T' (by decide) h1
  · rw [← Bool.not_eq_true, List.isPrefixOf_iff_prefix]
    rw [show (litStr ".") = ['.'] from rfl]
    rw [List.cons_prefix_cons]
    rintro ⟨h1, -⟩
    exact digitChar_ne d hd '.' (by decide) h1.symm

/-- Every character of a supported extension is a lowercase letter or a dot. -/
theorem ext_chars : ∀ e ∈ SUPPORTED_IMAGE_EXTENSIONS, ∀ ch ∈ e,
    ((97 ≤ ch.toNat && ch.toNat ≤ 122) || ch == '.') = true := by decide

/-- A character whose lowercase form is a lowercase letter or a dot lies in
the sanitizer's safe class. -/
theorem safe_of_lower (c : Char)
    (h : ((97 ≤ (charToLower c).toNat && (charToLower c).toNat ≤ 122) ||
          (charToLower c == '.')) = true) : isSafeChar c = true := by
  by_cases hA : 65 ≤ c.toNat ∧ c.toNat ≤ 90
  · simp only [isSafeChar, Bool.or_eq_true, Bool.and_eq_true, decide_eq_true_eq,
      beq_iff_eq]
    tauto
  · rw [charToLower, if_neg hA] at h
    simp only [Bool.or_eq_true, Bool.and_eq_true, decide_eq_true_eq, beq_iff_eq] at h
    simp only [isSafeChar, Bool.or_eq_true, Bool.and_eq_true, decide_eq_true_eq,
      beq_iff_eq]
    tauto

/-- Sanitizing preserves a recognized image extension: the sanitized name of
an image file is still an image file, and so is the timestamped filename. -/
theorem isImageFile_upload (t : Nat) (name : Str)
    (h : isImageFile name = true) : isImageFile (uploadFileName t name) = true := by
  rw [isImageFile, List.any_eq_true] at h ⊢
  obtain ⟨ext, hmem, hsuf⟩ := h
  refine ⟨ext, hmem, ?_⟩
  rw [List.isSuffixOf_iff_suffix] at hsuf ⊢
  obtain ⟨p, hp⟩ := hsuf
  rw [strToLower] at hp
  obtain ⟨n1, n2, hn, h1, h2⟩ := List.map_eq_append_iff.mp hp.symm
  have hsafe : ∀ c ∈ n2, isSafeChar c = true := by
    intro c hc
    apply safe_of_lower
    have hcl : charToLower c ∈ ext := by
      rw [← h2]; exact List.mem_map_of_mem _ hc
    exact ext_chars ext hmem _ hcl
  have hsan2 : n2.map (fun c => if isSafeChar c then c else '_') = n2 := by
    have hid : ∀ c ∈ n2, (if isSafeChar c then c else '_') = id c := by
      intro c hc; simp [hsafe c hc]
    rw [List.map_congr_left hid, List.map_id]
  refine ⟨(natDec t).map charToLower ++ (litStr "-").map charToLower ++
    (sanitizeFileName n1).map charToLower, ?_⟩
  rw [hn]
  simp only [uploadFileName, strToLower, sanitizeFileName, List.map_append,
    List.append_assoc, hsan2]
  rw [h2]

/-- The entry `uploadImage` writes survives every filter of `list`. -/
theorem keep_upload (t : Nat) (name : Str) (h : isImageFile name = true) :
    keepEntry ⟨uploadFileName t name, litStr "file", newSha⟩ = true := by
  rw [keepEntry]
  simp [shouldIgnore_upload t name, isImageFile_upload t name h]

/-- A successful `storeInState` forces every guard: present configuration,
image payload, an absent candidate path, the composed URL and the extended
snapshot. -/
theorem store_ok_spec (cfg : Config) (f : UploadFile) (t : Nat) (st : DirState)
    (url : Str) (st2 : DirState)
    (h : storeInState cfg f t st = .ok (url, st2)) :
    configOk cfg = true ∧ isImageFile f.name = true ∧
    (st.getD []).find? (fun e => e.name == uploadFileName t f.name) = none ∧
    url = rawUrl cfg (litStr "public/images/" ++ uploadFileName t f.name) ∧
    st2 = some ((st.getD []) ++
      [⟨uploadFileName t f.name, litStr "file", newSha⟩]) := by
  by_cases hcfg : configOk cfg = true
  · by_cases himg : isImageFile f.name = true
    · by_cases hsz : maxFileSize < f.size
      · simp [storeInState, uploadImage, hcfg, himg, hsz] at h
      · cases hfind : (st.getD []).find? (fun e => e.name == uploadFileName t f.name) with
        | some e =>
            by_cases hty : (e.type == litStr "file") = true
            all_goals
              simp [storeInState, uploadImage, storeEnv, getContentAt, hcfg, himg,
                    hsz, hfind, hty] at h
        | none =>
            have hcr : createFileInState st (uploadFileName t f.name) =
                .ok ((st.getD []) ++
                  [⟨uploadFileName t f.name, litStr "file", newSha⟩]) := by
              rw [createFileInState, hfind]
            simp [storeInState, uploadImage, storeEnv, getContentAt,
              Except.map, hcfg, himg, hsz, hfind, hcr] at h
            exact ⟨hcfg, himg, rfl, h.1.symm, h.2.symm⟩
    · rw [Bool.not_eq_true] at himg
      simp [storeInState, uploadImage, hcfg, himg] at h
  · rw [Bool.not_eq_true] at hcfg
    simp [storeInState, uploadImage, hcfg] at h

/-- `rawUrl` is injective in the path. -/
theorem rawUrl_inj (cfg : Config) (p q : Str) (h : rawUrl cfg p = rawUrl cfg q) :
    p = q := by
  rw [rawUrl, rawUrl] at h
  exact List.append_cancel_left h

/--
**C1.** Whenever `store` succeeds against a snapshot, running `list()` on the
resulting snapshot returns the URL `store` returned exactly once: the stored
entry survives the file-type, ignore-list, hidden-file and image-extension
filters, and no other entry maps to the same URL (the probe guaranteed the
name was absent, and the URL determines the name).
-/
theorem claim_C1 (cfg : Config) (f : UploadFile) (t : Nat) (st : DirState)
    (url : Str) (st2 : DirState)
    (h : storeInState cfg f t st = .ok (url, st2)) :
    (listOnState cfg st2).count url = 1 := by
  obtain ⟨hcfg, himg, hfind, hurl, hst2⟩ := store_ok_spec cfg f t st url st2 h
  subst hurl
  subst hst2
  have hlist : listOnState cfg
      (some ((st.getD []) ++ [DirEntry.mk (uploadFileName t f.name) (litStr "file") newSha])) =
      ((((st.getD []) ++
          [DirEntry.mk (uploadFileName t f.name) (litStr "file") newSha]).filter
            keepEntry).mergeSort descByName).map
        (fun file => rawUrl cfg (entryPath file)) := by
    simp [listOnState, dirResp, getUploadedImages, hcfg]
  rw [hlist]
  rw [List.count_eq_countP, List.countP_map, (List.mergeSort_perm _ _).countP_eq,
      List.countP_filter, List.countP_append, List.countP_cons, List.countP_nil]
  have hzero : (st.getD []).countP
      (fun a => ((fun x =>
          x == rawUrl cfg (litStr "public/images/" ++ uploadFileName t f.name)) ∘
          fun file => rawUrl cfg (entryPath file)) a && keepEntry a) = 0 := by
    rw [List.countP_eq_zero]
    intro e he hpe
    simp only [Function.comp, Bool.and_eq_true, beq_iff_eq] at hpe
    have hnames : e.name = uploadFileName t f.name := by
      have hpaths := rawUrl_inj cfg _ _ hpe.1
      rw [entryPath] at hpaths
      exact List.append_cancel_left hpaths
    have hne := List.find?_eq_none.mp hfind e he
    apply hne
    rw [hnames]
    exact beq_self_eq_true _
  rw [hzero]
  simp [Function.comp, entryPath, keep_upload t f.name himg]

/-- Witness for C1: a concrete successful store into an empty directory,
followed by a listing that contains the returned URL exactly once. -/
theorem claim_C1_witness :
    storeInState cfgDemo fileSmallJpg 5 stEmpty =
      .ok (litStr "https://raw.githubusercontent.com/owner/repo/main/public/images/5-a.jpg",
           some [⟨litStr "5-a.jpg", litStr "file", newSha⟩]) ∧
    (listOnState cfgDemo (some [⟨litStr "5-a.jpg", litStr "file", newSha⟩])).count
      (litStr "https://raw.githubusercontent.com/owner/repo/main/public/images/5-a.jpg") = 1 :=
  ⟨by decide,
    claim_C1 cfgDemo fileSmallJpg 5 stEmpty
      (litStr "https://raw.githubusercontent.com/owner/repo/main/public/images/5-a.jpg")
      (some [⟨litStr "5-a.jpg", litStr "file", newSha⟩])
      (by decide)⟩

end ImgUploader
